import Mathlib

/-!
Verification of the recommendation engine of the CommonAssessmentTool backend
(`app/clients/service/logic.py`): attribute encoding, intervention-space
enumeration, and the ranking pipeline. Python values flowing through the
encoder are modelled by `Value` (ints or raw strings); a Python `KeyError` or
`IndexError` is modelled by `Option`. The pickled regression model is treated
as an opaque deterministic `oracle : List Value → Int` parameter (only the
linear order on scores matters to the ranking logic); `np.argsort` followed by
row reindexing is modelled as an ascending sort of (row, score) pairs by
score. The tie order of numpy's default unstable quicksort is not determined
by the repository's source, so no particular tie-break is assumed.
-/

/-- A Python value as it flows through `clean_input_data`/`convert_text`:
either a number or a raw string. Numbers are modelled as integers. -/
inductive Value where
  | num : Int → Value
  | str : String → Value
deriving DecidableEq

/-- `mapOption f l` models a Python loop/comprehension applying `f` to each
element where `f` may raise (`none`): the whole computation fails if any
element fails, otherwise returns the list of results in order. -/
def mapOption (f : α → Option β) : List α → Option (List β)
  | [] => some []
  | a :: as =>
    match f a, mapOption f as with
    | some b, some bs => some (b :: bs)
    | _, _ => none

/-- The fixed field order of `clean_input_data` (`columns` in the source):
24 required fields, defining the column order of the encoded vector. -/
def columns : List String :=
  ["age", "gender", "work_experience", "canada_workex", "dep_num",
   "canada_born", "citizen_status", "level_of_schooling", "fluent_english",
   "reading_english_scale", "speaking_english_scale", "writing_english_scale",
   "numeracy_scale", "computer_scale", "transportation_bool", "caregiver_bool",
   "housing", "income_source", "felony_bool", "attending_school",
   "currently_employed", "substance_use", "time_unemployed",
   "need_mental_health_support_bool"]

/-- The four categorical lexicons of `convert_text` (`categorical_mappings`
in the source), in their fixed precedence order: boolean synonyms, schooling,
housing, income source. -/
def categorical_mappings : List (List (String × Int)) :=
  [[("", 0), ("true", 1), ("false", 0), ("no", 0), ("yes", 1),
    ("No", 0), ("Yes", 1)],
   [("Grade 0-8", 1), ("Grade 9", 2), ("Grade 10", 3), ("Grade 11", 4),
    ("Grade 12 or equivalent", 5), ("OAC or Grade 13", 6),
    ("Some college", 7), ("Some university", 8), ("Some apprenticeship", 9),
    ("Certificate of Apprenticeship", 10), ("Journeyperson", 11),
    ("Certificate/Diploma", 12), ("Bachelor\x27s degree", 13),
    ("Post graduate", 14)],
   [("Renting-private", 1), ("Renting-subsidized", 2),
    ("Boarding or lodging", 3), ("Homeowner", 4),
    ("Living with family/friend", 5), ("Institution", 6),
    ("Temporary second residence", 7), ("Band-owned home", 8),
    ("Homeless or transient", 9), ("Emergency hostel", 10)],
   [("No Source of Income", 1), ("Employment Insurance", 2),
    ("Workplace Safety and Insurance Board", 3),
    ("Ontario Works applied or receiving", 4),
    ("Ontario Disability Support Program applied or receiving", 5),
    ("Dependent of someone receiving OW or ODSP", 6), ("Crown Ward", 7),
    ("Employment", 8), ("Self-Employment", 9), ("Other (specify)", 10)]]

/-- Dictionary membership test plus lookup, modelling
`if text_data in category: return category[text_data]`. -/
def lookupTable (s : String) : List (String × Int) → Option Int
  | [] => none
  | (k, v) :: rest => if s = k then some v else lookupTable s rest

/-- The `for category in categorical_mappings` loop of `convert_text`:
return the value from the first lexicon containing the key. -/
def lookupCategorical (s : String) : List (List (String × Int)) → Option Int
  | [] => none
  | m :: ms =>
    match lookupTable s m with
    | some v => some v
    | none => lookupCategorical s ms

/-- Models Python `str.isnumeric` restricted to ASCII inputs: nonempty and
every character a decimal digit. (Python's `isnumeric` also accepts other
Unicode numerics, on some of which `int()` would then raise; the spec and all
vocabulary in this code are ASCII, so the embedding covers ASCII strings.) -/
def isnumeric (s : String) : Bool :=
  !s.isEmpty && s.data.all Char.isDigit

/-- Base-10 value of a digit string: what Python `int()` returns on a string
of ASCII decimal digits. -/
def strDigitsToNat (s : String) : Nat :=
  s.data.foldl (fun acc c => 10 * acc + (c.toNat - 48)) 0

/-- `convert_text` from the source: try the lexicons in order; otherwise
`int(text_data) if text_data.isnumeric() else text_data`. -/
def convert_text (text_data : String) : Value :=
  match lookupCategorical text_data categorical_mappings with
  | some v => Value.num v
  | none =>
    if isnumeric text_data then Value.num (Int.ofNat (strDigitsToNat text_data))
    else Value.str text_data

/-- The per-field step of `clean_input_data`'s output loop:
`if isinstance(value, str): value = convert_text(value)`. -/
def encodeValue : Value → Value
  | Value.str s => convert_text s
  | v => v

/-- `clean_input_data` from the source: look up each of the 24 required
fields (a missing field is a `KeyError`, i.e. `none`), converting string
values with `convert_text`. Extra fields of the input are never consulted. -/
def clean_input_data (input_data : String → Option Value) : Option (List Value) :=
  mapOption (fun column => (input_data column).map encodeValue) columns

/-- `itertools.product([0, 1], repeat=n)`: all 0/1 tuples of length `n`, the
last coordinate varying fastest (binary counting order). -/
def product01 : Nat → List (List Nat)
  | 0 => [[]]
  | n + 1 => (product01 n).flatMap (fun t => [t ++ [0], t ++ [1]])

/-- `intervention_permutations` from the source:
`np.array(list(product([0, 1], repeat=num)))`. -/
def intervention_permutations (num : Nat) : List (List Nat) :=
  product01 num

/-- The big-endian `n`-bit binary representation of `k`, used to state the
enumeration order of `product01`. -/
def natBits : Nat → Nat → List Nat
  | 0, _ => []
  | n + 1, k => natBits n (k / 2) ++ [k % 2]

/-- `COLUMN_INTERVENTIONS` from the source: the 7 intervention names, in
flag-position order. -/
def COLUMN_INTERVENTIONS : List String :=
  ["Life Stabilization",
   "General Employment Assistance Services",
   "Retention Services",
   "Specialized Services",
   "Employment-Related Financial Supports for Job Seekers and Employers",
   "Employer Financial Supports",
   "Enhanced Referrals for Skills Development"]

/-- `intervention_row_to_names` from the source:
`[COLUMN_INTERVENTIONS[i] for i, value in enumerate(row_data) if value == 1]`.
The index into `COLUMN_INTERVENTIONS` can raise `IndexError` (modelled by
`Option`) when the row is longer than 7. -/
def intervention_row_to_names (row_data : List Value) : Option (List String) :=
  mapOption (fun p => COLUMN_INTERVENTIONS.get? p.1)
    ((List.enum row_data).filter (fun p => decide (p.2 = Value.num 1)))

/-- `create_matrix` from the source: replicate the base row 128 times and
concatenate each copy with one intervention permutation (row-wise
`np.concatenate` of the replicated data with `intervention_permutations(7)`). -/
def create_matrix (row_data : List Value) : List (List Value) :=
  (intervention_permutations 7).map
    (fun perm => row_data ++ perm.map (fun b => Value.num (Int.ofNat b)))

/-- `get_baseline_row` from the source: the input row followed by
`np.zeros(7)`. -/
def get_baseline_row (row_data : List Value) : List Value :=
  row_data ++ List.replicate 7 (Value.num 0)

/-- The output record of the pipeline: the `{"baseline": ..,
"interventions": ..}` dict returned by `process_results`. -/
structure Recommendation where
  baseline : Int
  interventions : List (Int × List String)
deriving DecidableEq

/-- Ascending comparison of scored rows by their score (the last matrix
column in the source, held beside the row here). -/
def scoreLE (a b : List Value × Int) : Prop :=
  a.2 ≤ b.2

instance : DecidableRel scoreLE :=
  fun a b => inferInstanceAs (Decidable (a.2 ≤ b.2))

instance : IsTotal (List Value × Int) scoreLE :=
  ⟨fun a b => Int.le_total a.2 b.2⟩

instance : IsTrans (List Value × Int) scoreLE :=
  ⟨fun _ _ _ => Int.le_trans⟩

/-- `process_results` from the source: each row of the (already sliced)
result matrix carries its 7 intervention flags and its score; produce
`(row[-1], intervention_row_to_names(row[:-1]))` pairs and package them with
the baseline prediction. -/
def process_results (baseline_pred : Int) (results_matrix : List (List Value × Int)) :
    Option Recommendation :=
  (mapOption
      (fun row => (intervention_row_to_names row.1).map (fun names => (row.2, names)))
      results_matrix).map
    (fun result_list => { baseline := baseline_pred, interventions := result_list })

/-- `interpret_and_calculate` from the source, parameterized by the oracle
(`MODEL.predict`, applied row-wise): encode, score the baseline row and the
128 candidate rows, sort ascending by score (the `argsort`/reindex step; see
the module comment on tie order), keep the last 3 rows and their last 8
columns (7 flags plus score), and package the results. -/
def interpret_and_calculate (oracle : List Value → Int)
    (input_data : String → Option Value) : Option Recommendation :=
  match clean_input_data input_data with
  | none => none
  | some raw_data =>
    let intervention_rows := create_matrix raw_data
    let baseline_prediction := oracle (get_baseline_row raw_data)
    let result_matrix := intervention_rows.map (fun row => (row, oracle row))
    let sorted := List.insertionSort scoreLE result_matrix
    let top_results :=
      (sorted.drop (sorted.length - 3)).map
        (fun p => (p.1.drop (p.1.length - 7), p.2))
    process_results baseline_prediction top_results

/-- A concrete oracle for witnesses: scores every row 0. -/
def wOracle : List Value → Int :=
  fun _ => 0

/-- A concrete input record for witnesses: every required field present with
value 1. -/
def wInput : String → Option Value :=
  fun s => if columns.contains s then some (Value.num 1) else none

/-- The encoded feature vector of `wInput`. -/
def wRaw : List Value :=
  List.replicate 24 (Value.num 1)

/-- The recommendation computed for `wOracle`/`wInput`. -/
def wRecommendation : Recommendation :=
  (interpret_and_calculate wOracle wInput).getD ⟨0, []⟩

/-- A concrete input record missing the required field `"age"`. -/
def wInputMissing : String → Option Value :=
  fun s => if s = "age" then none else some (Value.num 2)

/-- The 128 candidate rows paired with their oracle scores (the matrix of
`interpret_and_calculate` just before the prediction column is appended). -/
def scoredRows (oracle : List Value → Int) (raw : List Value) : List (List Value × Int) :=
  (create_matrix raw).map (fun row => (row, oracle row))

/-- The scored candidate rows after the ascending sort by score. -/
def sortedRows (oracle : List Value → Int) (raw : List Value) : List (List Value × Int) :=
  List.insertionSort scoreLE (scoredRows oracle raw)

set_option maxRecDepth 10000

theorem mapOption_length {α β : Type} {g : α → Option β} :
    ∀ {l : List α} {res : List β}, mapOption g l = some res → res.length = l.length := by
  intro l
  induction l with
  | nil =>
    intro res hres
    simp only [mapOption, Option.some.injEq] at hres
    subst hres
    rfl
  | cons a as ih =>
    intro res hres
    simp only [mapOption] at hres
    cases hga : g a with
    | none => rw [hga] at hres; simp at hres
    | some b =>
      cases hmas : mapOption g as with
      | none => rw [hga, hmas] at hres; simp at hres
      | some bs =>
        rw [hga, hmas] at hres
        simp only [Option.some.injEq] at hres
        subst hres
        simp [ih hmas]

theorem mapOption_map_eq {α β γ : Type} {g : α → Option β} {h : β → γ} {k : α → γ}
    (hgk : ∀ a b, g a = some b → h b = k a) :
    ∀ {l : List α} {res : List β}, mapOption g l = some res → res.map h = l.map k := by
  intro l
  induction l with
  | nil =>
    intro res hres
    simp only [mapOption, Option.some.injEq] at hres
    subst hres
    rfl
  | cons a as ih =>
    intro res hres
    simp only [mapOption] at hres
    cases hga : g a with
    | none => rw [hga] at hres; simp at hres
    | some b =>
      cases hmas : mapOption g as with
      | none => rw [hga, hmas] at hres; simp at hres
      | some bs =>
        rw [hga, hmas] at hres
        simp only [Option.some.injEq] at hres
        subst hres
        simp [List.map_cons, hgk a b hga, ih hmas]

theorem mapOption_get? {α β : Type} {g : α → Option β} :
    ∀ {l : List α} {res : List β}, mapOption g l = some res →
      ∀ i, res.get? i = (l.get? i).bind g := by
  intro l
  induction l with
  | nil =>
    intro res hres i
    simp only [mapOption, Option.some.injEq] at hres
    subst hres
    simp
  | cons a as ih =>
    intro res hres i
    simp only [mapOption] at hres
    cases hga : g a with
    | none => rw [hga] at hres; simp at hres
    | some b =>
      cases hmas : mapOption g as with
      | none => rw [hga, hmas] at hres; simp at hres
      | some bs =>
        rw [hga, hmas] at hres
        simp only [Option.some.injEq] at hres
        subst hres
        cases i with
        | zero => simp [hga]
        | succ j => simpa using ih hmas j

theorem mapOption_congr {α β : Type} {g g₂ : α → Option β} :
    ∀ {l : List α}, (∀ a ∈ l, g₂ a = g a) → mapOption g₂ l = mapOption g l := by
  intro l
  induction l with
  | nil => intro _; rfl
  | cons a as ih =>
    intro hgg
    simp only [mapOption]
    rw [hgg a (List.mem_cons_self a as), ih (fun x hx => hgg x (List.mem_cons_of_mem a hx))]

theorem mapOption_isSome {α β : Type} {g : α → Option β} :
    ∀ {l : List α}, (∀ a ∈ l, (g a).isSome) → ∃ res, mapOption g l = some res := by
  intro l
  induction l with
  | nil => intro _; exact ⟨[], rfl⟩
  | cons a as ih =>
    intro hall
    obtain ⟨b, hb⟩ := Option.isSome_iff_exists.mp (hall a (List.mem_cons_self a as))
    obtain ⟨bs, hbs⟩ := ih (fun x hx => hall x (List.mem_cons_of_mem a hx))
    exact ⟨b :: bs, by simp only [mapOption, hb, hbs]⟩

theorem mapOption_eq_none_of_mem {α β : Type} {g : α → Option β} {c : α} :
    ∀ {l : List α}, c ∈ l → g c = none → mapOption g l = none := by
  intro l
  induction l with
  | nil => intro hc; exact absurd hc (List.not_mem_nil c)
  | cons a as ih =>
    intro hc hgc
    rcases List.mem_cons.mp hc with rfl | hc2
    · simp only [mapOption, hgc]
    · simp only [mapOption, ih hc2 hgc]
      cases g a <;> rfl

theorem lookupTable_eq_none {s : String} :
    ∀ {m : List (String × Int)}, (∀ kv ∈ m, ¬s = kv.1) → lookupTable s m = none := by
  intro m
  induction m with
  | nil => intro _; rfl
  | cons kv rest ih =>
    intro hall
    obtain ⟨k, v⟩ := kv
    simp only [lookupTable]
    rw [if_neg (hall (k, v) (List.mem_cons_self _ _)),
      ih (fun x hx => hall x (List.mem_cons_of_mem _ hx))]

theorem lookupCategorical_eq_none_of_tables {s : String} :
    ∀ {ms : List (List (String × Int))}, (∀ m ∈ ms, lookupTable s m = none) →
      lookupCategorical s ms = none := by
  intro ms
  induction ms with
  | nil => intro _; rfl
  | cons m rest ih =>
    intro hall
    simp only [lookupCategorical, hall m (List.mem_cons_self _ _),
      ih (fun x hx => hall x (List.mem_cons_of_mem _ hx))]

theorem lexicon_keys_not_digit_only :
    ∀ m ∈ categorical_mappings, ∀ kv ∈ m,
      kv.1.isEmpty = true ∨ kv.1.data.any (fun c => !c.isDigit) = true := by
  decide

theorem digit_only_not_in_lexicons {s : String} (h1 : s.isEmpty = false)
    (h2 : s.data.all Char.isDigit = true) :
    lookupCategorical s categorical_mappings = none := by
  apply lookupCategorical_eq_none_of_tables
  intro m hm
  apply lookupTable_eq_none
  intro kv hkv heq
  rcases lexicon_keys_not_digit_only m hm kv hkv with hemp | hany
  · rw [← heq] at hemp
    rw [h1] at hemp
    exact Bool.false_ne_true hemp
  · rw [← heq] at hany
    obtain ⟨c, hc, hcd⟩ := List.any_eq_true.mp hany
    have := List.all_eq_true.mp h2 c hc
    rw [this] at hcd
    exact Bool.false_ne_true hcd

theorem mem_of_getLast?_eq {α : Type} {l : List α} {m : α} (h : l.getLast? = some m) :
    m ∈ l := by
  obtain ⟨hne, heq⟩ := List.mem_getLast?_eq_getLast (show m ∈ l.getLast? from h)
  rw [heq]
  exact List.getLast_mem hne

theorem pairwise_le_getLast :
    ∀ {l : List Int}, List.Pairwise (· ≤ ·) l → ∀ {m : Int}, l.getLast? = some m →
      ∀ a ∈ l, a ≤ m := by
  intro l
  induction l with
  | nil => intro _ m hm; simp at hm
  | cons b t ih =>
    intro hp m hm a ha
    obtain ⟨hbt, hpt⟩ := List.pairwise_cons.mp hp
    cases t with
    | nil =>
      simp only [List.getLast?_singleton, Option.some.injEq] at hm
      subst hm
      simp only [List.mem_singleton] at ha
      subst ha
      exact le_refl a
    | cons c t2 =>
      rw [List.getLast?_cons_cons] at hm
      rcases List.mem_cons.mp ha with rfl | hat
      · exact hbt m (mem_of_getLast?_eq hm)
      · exact ih hpt hm a hat

theorem mem_product01 :
    ∀ (n : Nat) (l : List Nat),
      l ∈ product01 n ↔ l.length = n ∧ ∀ x ∈ l, x = 0 ∨ x = 1 := by
  intro n
  induction n with
  | zero =>
    intro l
    simp only [product01, List.mem_singleton]
    constructor
    · rintro rfl; exact ⟨rfl, by simp⟩
    · rintro ⟨hlen, _⟩; exact List.length_eq_zero.mp hlen
  | succ n ih =>
    intro l
    simp only [product01, List.mem_flatMap]
    constructor
    · rintro ⟨t, ht, hl⟩
      obtain ⟨htlen, htmem⟩ := (ih t).mp ht
      have hcases : l = t ++ [0] ∨ l = t ++ [1] := by
        simpa using hl
      rcases hcases with rfl | rfl <;>
        refine ⟨by simp [htlen], ?_⟩ <;>
          (intro x hx
           rcases List.mem_append.mp hx with hx2 | hx2
           · exact htmem x hx2
           · simp only [List.mem_singleton] at hx2
             subst hx2
             simp)
    · rintro ⟨hlen, helts⟩
      have hne : l ≠ [] := by
        intro h
        rw [h] at hlen
        simp at hlen
      refine ⟨l.dropLast, ?_, ?_⟩
      · apply (ih l.dropLast).mpr
        constructor
        · rw [List.length_dropLast, hlen]
          omega
        · intro x hx
          exact helts x (List.dropLast_sublist l |>.mem hx)
      · have hb := helts (l.getLast hne) (List.getLast_mem hne)
        have hdecomp := List.dropLast_append_getLast hne
        rcases hb with hb0 | hb0 <;> rw [← hdecomp, hb0] <;> simp

theorem interpret_eq (oracle : List Value → Int) (input_data : String → Option Value)
    (raw : List Value) (hclean : clean_input_data input_data = some raw) :
    interpret_and_calculate oracle input_data =
      process_results (oracle (get_baseline_row raw))
        (((sortedRows oracle raw).drop ((sortedRows oracle raw).length - 3)).map
          (fun p => (p.1.drop (p.1.length - 7), p.2))) := by
  unfold interpret_and_calculate
  rw [hclean]
  rfl

theorem process_results_spec (bp : Int) (mat : List (List Value × Int))
    (rec : Recommendation) (h : process_results bp mat = some rec) :
    rec.baseline = bp ∧ rec.interventions.length = mat.length ∧
      rec.interventions.map Prod.fst = mat.map Prod.snd := by
  unfold process_results at h
  rcases Option.map_eq_some'.mp h with ⟨rl, hrl, hrec⟩
  rw [← hrec]
  refine ⟨rfl, mapOption_length hrl, ?_⟩
  refine mapOption_map_eq (fun row b hb => ?_) hrl
  rcases Option.map_eq_some'.mp hb with ⟨ns, _, hns⟩
  rw [← hns]

/-- C4: for every input mapping containing all 24 required fields (and
possibly more), the encoder returns a vector of length exactly 24 whose i-th
entry is derived (via `encodeValue`) from the i-th field of the fixed field
order, and any input agreeing on the 24 required fields — whatever else it
contains — produces the same output. -/
theorem clean_input_data_complete (input_data : String → Option Value)
    (hall : ∀ c ∈ columns, (input_data c).isSome) :
    ∃ out, clean_input_data input_data = some out ∧ out.length = 24 ∧
      (∀ i, out.get? i = (columns.get? i).bind
        (fun c => (input_data c).map encodeValue)) ∧
      (∀ input2 : String → Option Value, (∀ c ∈ columns, input2 c = input_data c) →
        clean_input_data input2 = some out) := by
  obtain ⟨out, hout⟩ :=
    mapOption_isSome (g := fun column => (input_data column).map encodeValue)
      (l := columns) (fun c hc => by
        obtain ⟨v, hv⟩ := Option.isSome_iff_exists.mp (hall c hc)
        show ((input_data c).map encodeValue).isSome = true
        rw [hv]; rfl)
  refine ⟨out, hout, ?_, ?_, ?_⟩
  · rw [mapOption_length hout]; rfl
  · intro i
    have := mapOption_get? hout i
    simpa using this
  · intro input2 hagree
    unfold clean_input_data
    rw [mapOption_congr (fun c hc => by rw [hagree c hc])]
    exact hout

/-- Witness for C4 at the concrete record `wInput`. -/
theorem clean_input_data_complete_witness :
    ∃ out, clean_input_data wInput = some out ∧ out.length = 24 ∧
      (∀ i, out.get? i = (columns.get? i).bind
        (fun c => (wInput c).map encodeValue)) ∧
      (∀ input2 : String → Option Value, (∀ c ∈ columns, input2 c = wInput c) →
        clean_input_data input2 = some out) :=
  clean_input_data_complete wInput (by decide)

/-- C5: an input mapping missing at least one of the 24 required fields makes
the encoder fail with the lookup failure (`none`, modelling the `KeyError`),
rather than return any vector. -/
theorem clean_input_data_missing (input_data : String → Option Value) (c : String)
    (hc : c ∈ columns) (hmiss : input_data c = none) :
    clean_input_data input_data = none :=
  mapOption_eq_none_of_mem hc (by rw [hmiss]; rfl)

/-- Witness for C5 at a concrete record missing the `"age"` field. -/
theorem clean_input_data_missing_witness :
    clean_input_data wInputMissing = none :=
  clean_input_data_missing wInputMissing "age" (by decide) rfl

/-- C9: the ranker is a pure function of the oracle and the attributes: two
invocations on identical input yield the same baseline and the same
interventions list (same scores and names in the same order). -/
theorem interpret_and_calculate_deterministic (oracle : List Value → Int)
    (input_data : String → Option Value) (r1 r2 : Recommendation)
    (h1 : interpret_and_calculate oracle input_data = some r1)
    (h2 : interpret_and_calculate oracle input_data = some r2) :
    r1.baseline = r2.baseline ∧ r1.interventions = r2.interventions := by
  rw [h1, Option.some.injEq] at h2
  rw [h2]
  exact ⟨rfl, rfl⟩

/-- Witness for C9 at the concrete oracle `wOracle` and record `wInput`. -/
theorem interpret_and_calculate_deterministic_witness :
    wRecommendation.baseline = wRecommendation.baseline ∧
      wRecommendation.interventions = wRecommendation.interventions :=
  interpret_and_calculate_deterministic wOracle wInput wRecommendation
    wRecommendation rfl rfl

/-- C7: the intervention-space enumeration yields exactly 128 pairwise
distinct tuples, covering exactly the 0/1 vectors of length 7, and its k-th
element is the 7-bit big-endian binary representation of k (binary counting
order); being a pure function, the order is identical across invocations. -/
theorem intervention_permutations_complete :
    (intervention_permutations 7).length = 128 ∧
    (intervention_permutations 7).Nodup ∧
    (∀ l, l ∈ intervention_permutations 7 ↔
      l.length = 7 ∧ ∀ x ∈ l, x = 0 ∨ x = 1) ∧
    (∀ k, k < 128 → (intervention_permutations 7).get? k = some (natBits 7 k)) :=
  ⟨rfl, by decide, fun l => mem_product01 7 l, by decide⟩

/-- Witness for C7: the enumeration-order clause at k = 127 and the coverage
clause at the all-zero tuple. -/
theorem intervention_permutations_complete_witness :
    (intervention_permutations 7).get? 127 = some (natBits 7 127) ∧
    (([0, 0, 0, 0, 0, 0, 0] : List Nat) ∈ intervention_permutations 7 ↔
      ([0, 0, 0, 0, 0, 0, 0] : List Nat).length = 7 ∧
        ∀ x ∈ ([0, 0, 0, 0, 0, 0, 0] : List Nat), x = 0 ∨ x = 1) :=
  ⟨intervention_permutations_complete.2.2.2 127 (by decide),
    intervention_permutations_complete.2.2.1 [0, 0, 0, 0, 0, 0, 0]⟩

/-- C6: the text converter tries the lexicons in the fixed precedence order
(boolean synonyms, then schooling, then housing, then income source) and
returns the first matching code; when no lexicon matches it falls back to
integer parsing; when that also fails it returns the original string
unchanged instead of raising. The required regression values are included. -/
theorem convert_text_precedence :
    (∀ (s : String) (i : Nat) (v : Int), i < 4 →
      (∀ j, j < i → lookupTable s (categorical_mappings.getD j []) = none) →
      lookupTable s (categorical_mappings.getD i []) = some v →
      convert_text s = Value.num v) ∧
    (∀ s : String, (∀ m ∈ categorical_mappings, lookupTable s m = none) →
      isnumeric s = true →
      convert_text s = Value.num (Int.ofNat (strDigitsToNat s))) ∧
    (∀ s : String, (∀ m ∈ categorical_mappings, lookupTable s m = none) →
      isnumeric s = false → convert_text s = Value.str s) ∧
    convert_text "Grade 12 or equivalent" = Value.num 5 ∧
    convert_text "Homeowner" = Value.num 4 ∧
    convert_text "Yes" = Value.num 1 ∧
    convert_text "no" = Value.num 0 := by
  refine ⟨?_, ?_, ?_, by decide, by decide, by decide, by decide⟩
  · intro s i v hi hprev hcur
    have hcat : lookupCategorical s categorical_mappings = some v := by
      interval_cases i
      · simp only [categorical_mappings, List.getD_cons_zero] at hcur
        simp only [categorical_mappings, lookupCategorical, hcur]
      · have h0 := hprev 0 (by omega)
        simp only [categorical_mappings, List.getD_cons_zero,
          List.getD_cons_succ] at h0 hcur
        simp only [categorical_mappings, lookupCategorical, h0, hcur]
      · have h0 := hprev 0 (by omega)
        have h1 := hprev 1 (by omega)
        simp only [categorical_mappings, List.getD_cons_zero,
          List.getD_cons_succ] at h0 h1 hcur
        simp only [categorical_mappings, lookupCategorical, h0, h1, hcur]
      · have h0 := hprev 0 (by omega)
        have h1 := hprev 1 (by omega)
        have h2 := hprev 2 (by omega)
        simp only [categorical_mappings, List.getD_cons_zero,
          List.getD_cons_succ] at h0 h1 h2 hcur
        simp only [categorical_mappings, lookupCategorical, h0, h1, h2, hcur]
    simp only [convert_text, hcat]
  · intro s hm hnum
    have hcat := lookupCategorical_eq_none_of_tables hm
    simp only [convert_text, hcat, hnum, if_true]
  · intro s hm hnum
    have hcat := lookupCategorical_eq_none_of_tables hm
    simp only [convert_text, hcat, hnum, Bool.false_eq_true, if_false]

/-- Witness for C6: the lexicon-precedence clause at the housing key
`"Homeowner"` (third lexicon), the integer-parse clause at `"42"`, and the
pass-through clause at `"hello"`. -/
theorem convert_text_precedence_witness :
    convert_text "Homeowner" = Value.num 4 ∧
    convert_text "42" = Value.num (Int.ofNat (strDigitsToNat "42")) ∧
    convert_text "hello" = Value.str "hello" :=
  ⟨convert_text_precedence.1 "Homeowner" 2 4 (by omega)
      (by decide) (by decide),
    convert_text_precedence.2.1 "42" (by decide) (by decide),
    convert_text_precedence.2.2.1 "hello" (by decide) (by decide)⟩

/-- C10: the integer-parse fallback accepts exactly the nonempty all-digit
strings: such a string (never a lexicon key) parses to its non-negative
base-10 value, while signed, decimal, or exponent notation fails the parse
and passes through unchanged as a string. -/
theorem convert_text_numeric_fallback :
    (∀ s : String, s.isEmpty = false → s.data.all Char.isDigit = true →
      convert_text s = Value.num (Int.ofNat (strDigitsToNat s)) ∧
        0 ≤ Int.ofNat (strDigitsToNat s)) ∧
    convert_text "-5" = Value.str "-5" ∧
    convert_text "2.5" = Value.str "2.5" ∧
    convert_text "1e3" = Value.str "1e3" := by
  refine ⟨?_, by decide, by decide, by decide⟩
  intro s h1 h2
  have hcat := digit_only_not_in_lexicons h1 h2
  have hnum : isnumeric s = true := by
    simp only [isnumeric, h1, h2, Bool.not_false, Bool.and_self]
  exact ⟨by simp only [convert_text, hcat, hnum, if_true], Int.ofNat_nonneg _⟩

/-- Witness for C10 at the digit-only string `"123"`. -/
theorem convert_text_numeric_fallback_witness :
    convert_text "123" = Value.num (Int.ofNat (strDigitsToNat "123")) ∧
      0 ≤ Int.ofNat (strDigitsToNat "123") :=
  convert_text_numeric_fallback.1 "123" (by decide) (by decide)

theorem names_zip_aux :
    ∀ (row : List Value) (i : Nat), i + row.length ≤ COLUMN_INTERVENTIONS.length →
      mapOption (fun p => COLUMN_INTERVENTIONS.get? p.1)
        ((List.enumFrom i row).filter (fun p => decide (p.2 = Value.num 1)))
      = some (((row.zip (COLUMN_INTERVENTIONS.drop i)).filter
          (fun p => decide (p.1 = Value.num 1))).map Prod.snd) := by
  intro row
  induction row with
  | nil => intro i _; simp [mapOption]
  | cons v rest ih =>
    intro i hle
    have hi : i < COLUMN_INTERVENTIONS.length := by
      simp only [List.length_cons] at hle; omega
    have hnext := ih (i + 1) (by simp only [List.length_cons] at hle; omega)
    simp only [List.get?_eq_getElem? ] at hnext
    rw [List.drop_eq_getElem_cons hi]
    simp only [List.enumFrom_cons, List.zip_cons_cons, List.filter_cons]
    by_cases hv : v = Value.num 1
    · simp [hv, mapOption, hnext, List.get?_eq_getElem? , List.getElem?_eq_getElem hi]
    · simp [hv, hnext, List.get?_eq_getElem? ]

/-- C8: the flags-to-names projection maps the all-zero 7-flag vector to `[]`
and the all-one vector to all 7 names in fixed position order; in general, on
a 7-flag row it never fails and returns exactly one name per flag equal to 1,
in flag-position order (the second projection of the flag/name pairs whose
flag is 1). -/
theorem intervention_row_to_names_spec :
    intervention_row_to_names (List.replicate 7 (Value.num 0)) = some [] ∧
    intervention_row_to_names (List.replicate 7 (Value.num 1)) =
      some COLUMN_INTERVENTIONS ∧
    (∀ row : List Value, row.length = 7 →
      intervention_row_to_names row =
        some (((row.zip COLUMN_INTERVENTIONS).filter
          (fun p => decide (p.1 = Value.num 1))).map Prod.snd)) := by
  refine ⟨by decide, by decide, ?_⟩
  intro row hlen
  have := names_zip_aux row 0 (by rw [hlen]; decide)
  simpa [intervention_row_to_names, List.enum, List.get?_eq_getElem? ] using this

/-- Witness for C8 at the concrete flag row 1,0,0,0,0,0,1. -/
theorem intervention_row_to_names_spec_witness :
    intervention_row_to_names
        [Value.num 1, Value.num 0, Value.num 0, Value.num 0, Value.num 0,
         Value.num 0, Value.num 1] =
      some ((([Value.num 1, Value.num 0, Value.num 0, Value.num 0, Value.num 0,
          Value.num 0, Value.num 1].zip COLUMN_INTERVENTIONS).filter
        (fun p => decide (p.1 = Value.num 1))).map Prod.snd) :=
  intervention_row_to_names_spec.2.2 _ (by decide)

theorem interp_components (oracle : List Value → Int)
    (input_data : String → Option Value) (raw : List Value) (rec : Recommendation)
    (hclean : clean_input_data input_data = some raw)
    (hrec : interpret_and_calculate oracle input_data = some rec) :
    rec.baseline = oracle (get_baseline_row raw) ∧
    rec.interventions.length =
      ((sortedRows oracle raw).drop ((sortedRows oracle raw).length - 3)).length ∧
    rec.interventions.map Prod.fst =
      ((sortedRows oracle raw).drop ((sortedRows oracle raw).length - 3)).map
        Prod.snd := by
  rw [interpret_eq oracle input_data raw hclean] at hrec
  obtain ⟨hbase, hlen, hscore⟩ := process_results_spec _ _ _ hrec
  refine ⟨hbase, ?_, ?_⟩
  · rw [hlen, List.length_map]
  · rw [hscore, List.map_map]
    rfl

theorem sorted_scores (oracle : List Value → Int) (raw : List Value) :
    List.Sorted (· ≤ ·)
      (((sortedRows oracle raw).drop ((sortedRows oracle raw).length - 3)).map
        Prod.snd) := by
  have hsorted : List.Pairwise scoreLE (sortedRows oracle raw) :=
    List.sorted_insertionSort scoreLE (scoredRows oracle raw)
  have hdrop := List.Pairwise.sublist
    (List.drop_sublist ((sortedRows oracle raw).length - 3) (sortedRows oracle raw))
    hsorted
  exact List.pairwise_map.mpr (hdrop.imp (fun h => h))

theorem sortedRows_length (oracle : List Value → Int) (raw : List Value) :
    (sortedRows oracle raw).length = 128 := by
  have hmat : (create_matrix raw).length = 128 := by
    rw [create_matrix, List.length_map]
    rfl
  have hperm : (sortedRows oracle raw).Perm (scoredRows oracle raw) :=
    List.perm_insertionSort scoreLE (scoredRows oracle raw)
  rw [hperm.length_eq, scoredRows, List.length_map, hmat]

/-- C1: for every attributes record accepted by the encoder and any
deterministic oracle, the ranker's interventions list has non-decreasing
scores from first to last, and the returned baseline equals the oracle's
prediction for the row formed by the 24 encoded features followed by seven
zero flags. -/
theorem ranker_sorted_and_baseline (oracle : List Value → Int)
    (input_data : String → Option Value) (raw : List Value) (rec : Recommendation)
    (hclean : clean_input_data input_data = some raw)
    (hrec : interpret_and_calculate oracle input_data = some rec) :
    raw.length = 24 ∧
    List.Sorted (· ≤ ·) (rec.interventions.map Prod.fst) ∧
    rec.baseline = oracle (raw ++ List.replicate 7 (Value.num 0)) := by
  obtain ⟨hbase, _, hscores⟩ :=
    interp_components oracle input_data raw rec hclean hrec
  refine ⟨?_, ?_, ?_⟩
  · unfold clean_input_data at hclean
    rw [mapOption_length hclean]
    rfl
  · rw [hscores]
    exact sorted_scores oracle raw
  · rw [hbase]
    rfl

/-- Witness for C1 at the concrete oracle `wOracle` and record `wInput`. -/
theorem ranker_sorted_and_baseline_witness :
    wRaw.length = 24 ∧
    List.Sorted (· ≤ ·) (wRecommendation.interventions.map Prod.fst) ∧
    wRecommendation.baseline = wOracle (wRaw ++ List.replicate 7 (Value.num 0)) :=
  ranker_sorted_and_baseline wOracle wInput wRaw wRecommendation (by decide) rfl

/-- C2: for every attributes record accepted by the encoder and any
deterministic oracle, the interventions list has exactly 3 entries, they are
the 3 highest-scoring of the 128 candidate rows (every remaining candidate
score is bounded by each returned score), they appear in ascending score
order, and the last entry's score is the global maximum over all 128
candidates (best-last convention). -/
theorem ranker_top3 (oracle : List Value → Int)
    (input_data : String → Option Value) (raw : List Value) (rec : Recommendation)
    (hclean : clean_input_data input_data = some raw)
    (hrec : interpret_and_calculate oracle input_data = some rec) :
    (create_matrix raw).length = 128 ∧
    rec.interventions.length = 3 ∧
    List.Sorted (· ≤ ·) (rec.interventions.map Prod.fst) ∧
    (∃ rest : List Int,
      ((create_matrix raw).map oracle).Perm
        (rest ++ rec.interventions.map Prod.fst) ∧
      ∀ s ∈ rest, ∀ t ∈ rec.interventions.map Prod.fst, s ≤ t) ∧
    (∃ m, (rec.interventions.map Prod.fst).getLast? = some m ∧
      ∀ row ∈ create_matrix raw, oracle row ≤ m) := by
  obtain ⟨hbase, hlen, hscores⟩ :=
    interp_components oracle input_data raw rec hclean hrec
  have hSlen := sortedRows_length oracle raw
  have hmat : (create_matrix raw).length = 128 := by
    rw [create_matrix, List.length_map]
    rfl
  have hlen3 : rec.interventions.length = 3 := by
    rw [hlen, List.length_drop, hSlen]
  have hperm : (sortedRows oracle raw).Perm (scoredRows oracle raw) :=
    List.perm_insertionSort scoreLE (scoredRows oracle raw)
  have hall : (create_matrix raw).map oracle =
      (scoredRows oracle raw).map Prod.snd := by
    rw [scoredRows, List.map_map]
    rfl
  have hsplitmap : (sortedRows oracle raw).map Prod.snd =
      ((sortedRows oracle raw).take ((sortedRows oracle raw).length - 3)).map
          Prod.snd ++
        ((sortedRows oracle raw).drop ((sortedRows oracle raw).length - 3)).map
          Prod.snd := by
    rw [← List.map_append, List.take_append_drop]
  have hpermscores : ((create_matrix raw).map oracle).Perm
      (((sortedRows oracle raw).take ((sortedRows oracle raw).length - 3)).map
          Prod.snd ++
        rec.interventions.map Prod.fst) := by
    rw [hall, hscores, ← hsplitmap]
    exact (hperm.map Prod.snd).symm
  have hsorted : List.Pairwise scoreLE (sortedRows oracle raw) :=
    List.sorted_insertionSort scoreLE (scoredRows oracle raw)
  have hsplitpw : List.Pairwise scoreLE
      ((sortedRows oracle raw).take ((sortedRows oracle raw).length - 3) ++
        (sortedRows oracle raw).drop ((sortedRows oracle raw).length - 3)) := by
    rw [List.take_append_drop]
    exact hsorted
  have hdom : ∀ s ∈ ((sortedRows oracle raw).take
        ((sortedRows oracle raw).length - 3)).map Prod.snd,
      ∀ t ∈ rec.interventions.map Prod.fst, s ≤ t := by
    intro s hs t ht
    rw [hscores] at ht
    obtain ⟨a, ha, rfl⟩ := List.mem_map.mp hs
    obtain ⟨b, hb, rfl⟩ := List.mem_map.mp ht
    exact (List.pairwise_append.mp hsplitpw).2.2 a ha b hb
  have hne : rec.interventions.map Prod.fst ≠ [] := by
    intro h
    have := congrArg List.length h
    rw [List.length_map, hlen3] at this
    simp at this
  obtain ⟨m, hm⟩ := Option.isSome_iff_exists.mp (List.getLast?_isSome.mpr hne)
  refine ⟨hmat, hlen3, by rw [hscores]; exact sorted_scores oracle raw,
    ⟨_, hpermscores, hdom⟩, ⟨m, hm, ?_⟩⟩
  intro row hrow
  have hsndmem : oracle row ∈ (create_matrix raw).map oracle :=
    List.mem_map_of_mem oracle hrow
  have hmem2 := hpermscores.mem_iff.mp hsndmem
  rcases List.mem_append.mp hmem2 with hrest | hsc
  · exact hdom (oracle row) hrest m (mem_of_getLast?_eq hm)
  · have hsortedsc : List.Pairwise (· ≤ ·) (rec.interventions.map Prod.fst) := by
      rw [hscores]
      exact sorted_scores oracle raw
    exact pairwise_le_getLast hsortedsc hm (oracle row) hsc

/-- Witness for C2 at the concrete oracle `wOracle` and record `wInput`. -/
theorem ranker_top3_witness :
    (create_matrix wRaw).length = 128 ∧
    wRecommendation.interventions.length = 3 ∧
    List.Sorted (· ≤ ·) (wRecommendation.interventions.map Prod.fst) ∧
    (∃ rest : List Int,
      ((create_matrix wRaw).map wOracle).Perm
        (rest ++ wRecommendation.interventions.map Prod.fst) ∧
      ∀ s ∈ rest, ∀ t ∈ wRecommendation.interventions.map Prod.fst, s ≤ t) ∧
    (∃ m, (wRecommendation.interventions.map Prod.fst).getLast? = some m ∧
      ∀ row ∈ create_matrix wRaw, wOracle row ≤ m) :=
  ranker_top3 wOracle wInput wRaw wRecommendation (by decide) rfl
